import Mathlib

/-!
# Shallow embedding of `@retronew/bytes`

This file embeds the two utility modules and the public API of the
`@retronew/bytes` TypeScript library (byte-count formatting and parsing)
and proves the spec's claims about them.

Modelling conventions:

* JavaScript numbers are idealised as exact rationals `ℚ`; the special
  values `NaN`, `+Infinity`, `-Infinity` are made explicit through the
  inductive `JSNum`.  Floating-point rounding and overflow are outside
  the scope of the claims settled here.
* JavaScript strings are Lean `String`s, manipulated as `List Char`.
* Regular expressions are compiled by hand into deterministic
  `List Char` functions; each such function documents the regex it
  implements and why greedy matching is faithful (backtracking never
  yields a different overall match for these patterns).
* Fallible operations return `Option`; a thrown exception is an
  `Except.error`.
-/

namespace Bytes

/-- The canonical unit table of `src/utils.ts`: label and power of 1024
(`UNITS` in the source). -/
def UNITS : List (String × ℕ) :=
  [("B", 0), ("KB", 1), ("MB", 2), ("GB", 3), ("TB", 4),
   ("PB", 5), ("EB", 6), ("ZB", 7), ("YB", 8)]

/-- The nine canonical uppercase unit labels, in increasing order. -/
def LABELS : List String :=
  ["B", "KB", "MB", "GB", "TB", "PB", "EB", "ZB", "YB"]

/-- The nine lowercase unit names (`UNIT_VALUE_BY_LOWER`'s keys). -/
def LOWER_LABELS : List String :=
  ["b", "kb", "mb", "gb", "tb", "pb", "eb", "zb", "yb"]

/-- Model of `String.prototype.toLowerCase`, restricted to ASCII case
mapping (sufficient for every unit token; the exotic non-ASCII
characters whose Unicode lowercase is an ASCII letter are not modelled). -/
def jsToLower (s : String) : String :=
  String.mk (s.data.map Char.toLower)

/-- Model of `String.prototype.toUpperCase`, restricted to ASCII case
mapping. -/
def jsToUpper (s : String) : String :=
  String.mk (s.data.map Char.toUpper)

/-- Model of `UNIT_VALUE_BY_LABEL`: multiplier of an uppercase label
(`1024 ** power`); 0 for unknown labels (never consulted there). -/
def unitValueByLabel (u : String) : ℚ :=
  match (UNITS.find? (fun e => e.1 == u)) with
  | some e => (1024 : ℚ) ^ e.2
  | none => 0

/-- Model of `UNIT_VALUE_BY_LOWER`: multiplier of a lowercase unit name;
0 for unknown names (never consulted there). -/
def unitValueByLower (u : String) : ℚ :=
  match (UNITS.find? (fun e => jsToLower e.1 == u)) with
  | some e => (1024 : ℚ) ^ e.2
  | none => 0

/-- Model of `UNIT_THRESHOLDS`: the unit table reversed, each with its
`1024 ** power` threshold. -/
def UNIT_THRESHOLDS : List (String × ℚ) :=
  [("YB", (1024 : ℚ) ^ 8), ("ZB", (1024 : ℚ) ^ 7), ("EB", (1024 : ℚ) ^ 6),
   ("PB", (1024 : ℚ) ^ 5), ("TB", (1024 : ℚ) ^ 4), ("GB", (1024 : ℚ) ^ 3),
   ("MB", (1024 : ℚ) ^ 2), ("KB", (1024 : ℚ) ^ 1), ("B", (1024 : ℚ) ^ 0)]

/-- Model of `PARSEABLE_UNITS` with `b` re-appended, i.e. the
alternatives of the unit group of `PARSE_RE` (`kb|mb|gb|...|b`). -/
def PARSE_UNIT_TOKENS : List String :=
  ["kb", "mb", "gb", "tb", "pb", "eb", "zb", "yb", "b"]

/-- Model of `toByteUnit` from `src/utils.ts`: lowercase the string and
keep it if it is a key of `UNIT_VALUE_BY_LOWER`, else `null`. -/
def toByteUnit (value : String) : Option String :=
  let normalized := jsToLower value
  if normalized ∈ LOWER_LABELS then some normalized else none

/-- Model of `toUnitLabel` from `src/utils.ts`: `toByteUnit` then
uppercase. -/
def toUnitLabel (value : String) : Option String :=
  match toByteUnit value with
  | none => none
  | some lowerUnit => some (jsToUpper lowerUnit)

/-- The explicit-unit branch of `resolveUnit`, shared verbatim by
`src/utils.ts` and `src/unnamed/part_001`: `if (preferredUnit)` (JS
truthiness: `undefined` and the empty string are falsy) followed by
`toUnitLabel`. -/
def explicitUnit (preferredUnit : Option String) : Option String :=
  match preferredUnit with
  | none => none
  | some p => if p.isEmpty then none else toUnitLabel p

/-- Model of `resolveUnit` from `src/utils.ts`: explicit unit if
recognised, else scan `UNIT_THRESHOLDS` for the first unit whose
threshold is at most the magnitude, defaulting to `B`. -/
def resolveUnit (magnitude : ℚ) (preferredUnit : Option String) : String :=
  match explicitUnit preferredUnit with
  | some u => u
  | none =>
    match UNIT_THRESHOLDS.find? (fun ut => decide (ut.2 ≤ magnitude)) with
    | some ut => ut.1
    | none => "B"

/-- A JavaScript number, idealised: the finite values are exact
rationals; the special values are explicit. -/
inductive JSNum where
  | nan : JSNum
  | inf (neg : Bool) : JSNum
  | fin (q : ℚ) : JSNum
  deriving DecidableEq

/-- Model of `Number.isFinite`. -/
def JSNum.isFinite : JSNum → Bool
  | .fin _ => true
  | _ => false

/-- Whitespace for the purposes of `String.prototype.trim` and the `\s`
character class (ECMAScript WhiteSpace and LineTerminator; the main
code points are modelled). -/
def isJsWs (c : Char) : Bool :=
  ([' ', '\t', '\n', '\r', Char.ofNat 11, Char.ofNat 12, Char.ofNat 160,
    Char.ofNat 0xFEFF, Char.ofNat 0x2028, Char.ofNat 0x2029] : List Char).contains c

/-- Model of `String.prototype.trim`: drop leading and trailing
whitespace. -/
def jsTrim (l : List Char) : List Char :=
  ((l.dropWhile isJsWs).reverse.dropWhile isJsWs).reverse

/-- Numeric value of a list of decimal digit characters (most
significant first). -/
def digitsToNat (ds : List Char) : ℕ :=
  ds.foldl (fun acc c => 10 * acc + (c.toNat - 48)) 0

/-- The optional `ExponentPart` suffix consumed by `parseFloat`: `e` or
`E`, an optional sign and at least one digit; contributes exponent 0
when absent or incomplete (an incomplete exponent is not consumed,
which only the numeric value observes). -/
def parseExp (l : List Char) : ℤ :=
  match l with
  | c :: r =>
    if c = 'e' ∨ c = 'E' then
      match r with
      | '+' :: r2 =>
        let ds := r2.takeWhile Char.isDigit
        if ds.isEmpty then 0 else (digitsToNat ds : ℤ)
      | '-' :: r2 =>
        let ds := r2.takeWhile Char.isDigit
        if ds.isEmpty then 0 else -(digitsToNat ds : ℤ)
      | r2 =>
        let ds := r2.takeWhile Char.isDigit
        if ds.isEmpty then 0 else (digitsToNat ds : ℤ)
    else 0
  | [] => 0

/-- Exact value of a decimal literal: sign, integer digits, fraction
digits and exponent. -/
def decValue (neg : Bool) (intDs fracDs : List Char) (e : ℤ) : ℚ :=
  let mag : ℚ := (digitsToNat intDs : ℚ) + (digitsToNat fracDs : ℚ) / (10 : ℚ) ^ fracDs.length
  (if neg then -mag else mag) * (10 : ℚ) ^ e

/-- The unsigned part of `parseFloat`: the literal `Infinity`, or a
decimal mantissa (digits, optional point and digits, at least one digit
overall) with an optional exponent.  Greedy prefix parsing mirrors
"the longest prefix that satisfies the syntax of StrDecimalLiteral". -/
def parseFloatCore (l : List Char) (neg : Bool) : JSNum :=
  if l.take 8 = "Infinity".data then .inf neg
  else
    let intDs := l.takeWhile Char.isDigit
    let rest := l.drop intDs.length
    match rest with
    | '.' :: r2 =>
      let fracDs := r2.takeWhile Char.isDigit
      if intDs.isEmpty ∧ fracDs.isEmpty then .nan
      else .fin (decValue neg intDs fracDs (parseExp (r2.drop fracDs.length)))
    | _ =>
      if intDs.isEmpty then .nan
      else .fin (decValue neg intDs [] (parseExp rest))

/-- Model of `Number.parseFloat`: skip leading whitespace, read an
optional sign, then the longest `StrUnsignedDecimalLiteral` prefix;
`NaN` when no prefix parses. -/
def parseFloat (l : List Char) : JSNum :=
  let t := l.dropWhile isJsWs
  match t with
  | '+' :: r => parseFloatCore r false
  | '-' :: r => parseFloatCore r true
  | _ => parseFloatCore t false

/-- Decimal digit characters of a natural number, via fuel-bounded
division (structurally recursive, so it reduces in the kernel). -/
def digitsAux : ℕ → ℕ → List Char → List Char
  | 0, _, ds => ds
  | fuel + 1, n, ds =>
    let d := Char.ofNat (48 + n % 10)
    let n2 := n / 10
    if n2 = 0 then d :: ds else digitsAux fuel n2 (d :: ds)

/-- Decimal digit characters of a natural number, most significant
first; `0` renders as `"0"`. -/
def natDigits (n : ℕ) : List Char :=
  digitsAux (n + 1) n []

/-- Left-pad a digit list with `'0'` to the requested length. -/
def padLeftZeros (len : ℕ) (ds : List Char) : List Char :=
  List.replicate (len - ds.length) '0' ++ ds

/-- Model of `Number.prototype.toFixed`: the sign of the input, then the
integer closest to `|x| * 10^f` (ties to the larger, i.e.
`⌊|x| * 10^f + 1/2⌋`) rendered with a decimal point before the last `f`
digits; no point at all when `f = 0`. -/
def toFixed (x : ℚ) (f : ℕ) : List Char :=
  let neg := x < 0
  let n : ℕ := (⌊|x| * (10 : ℚ) ^ f + 1/2⌋).toNat
  let sign : List Char := if neg then ['-'] else []
  if f = 0 then sign ++ natDigits n
  else
    let ds := padLeftZeros (f + 1) (natDigits n)
    sign ++ ds.take (ds.length - f) ++ '.' :: ds.drop (ds.length - f)

/-- Anchored-at-end match of `FORMAT_DECIMALS_RE`, i.e.
`(?:\.0*|(\.[^0]+)0+)$`, attempted at the head of `l` (both alternatives
start with `\.` and run to `$`).  Returns the replacement text `$1` on a
match.  The greedy `[^0]+` is faithful: shortening it leaves a non-zero
character where `0+` must match, so only the maximal run can succeed. -/
def decimalsMatchAt (l : List Char) : Option (List Char) :=
  match l with
  | c :: rest =>
    if c = '.' then
      if rest.all (fun x => x = '0') then some []
      else
        let a := rest.takeWhile (fun x => x ≠ '0')
        let b := rest.drop a.length
        if a ≠ [] ∧ b ≠ [] ∧ b.all (fun x => x = '0') then some ('.' :: a)
        else none
    else none
  | [] => none

/-- Model of `formattedValue.replace(FORMAT_DECIMALS_RE, '$1')`:
replace the leftmost match (which necessarily extends to the end of the
string) by its first capture group. -/
def replaceDecimals : List Char → List Char
  | [] => []
  | c :: rest =>
    match decimalsMatchAt (c :: rest) with
    | some repl => repl
    | none => c :: replaceDecimals rest

/-- Model of `integerPart.replace(FORMAT_THOUSANDS_RE, sep)` on a run of
digits: `\B(?=(\d{3})+(?!\d))` inserts the separator before every digit
with a positive multiple of three digits after it (and at least one
digit before it, since position 0 is a `\b` boundary). -/
def groupDigits (sep : List Char) : List Char → List Char
  | [] => []
  | d :: ds =>
    d :: (if ds.length % 3 = 0 ∧ ds ≠ [] then sep ++ groupDigits sep ds
          else groupDigits sep ds)

/-- Thousands grouping of a rendered integer part, which is an optional
`'-'` followed by digits.  The position after the sign is a `\b`
boundary, so no separator lands there. -/
def groupInteger (sep : List Char) (intPart : List Char) : List Char :=
  match intPart with
  | c :: ds => if c = '-' then c :: groupDigits sep ds else groupDigits sep (c :: ds)
  | [] => groupDigits sep []

/-- Model of `formatValue` from `src/utils.ts`: normalise the unit
(returning `"NaN"`, i.e. `Number.NaN.toString()`, when unknown), divide
by its multiplier, render with `toFixed`, optionally strip trailing
zeros, optionally insert thousands separators into the integer part
(the code splits on `'.'` and reassembles from the first two
components). -/
def formatValue (value : ℚ) (unit : String) (decimalPlaces : ℕ)
    (fixedDecimals : Bool) (thousandsSeparator : String) : String :=
  match toUnitLabel unit with
  | none => "NaN"
  | some normalizedUnit =>
    let divisor := unitValueByLabel normalizedUnit
    let fv0 := toFixed (value / divisor) decimalPlaces
    let fv1 := if fixedDecimals then fv0 else replaceDecimals fv0
    let fv2 :=
      if thousandsSeparator.isEmpty then fv1
      else
        let integerPart := fv1.takeWhile (fun c => c ≠ '.')
        let rest := fv1.dropWhile (fun c => c ≠ '.')
        let groupedInteger := groupInteger thousandsSeparator.data integerPart
        match rest with
        | [] => groupedInteger
        | _ :: r => groupedInteger ++ '.' :: r.takeWhile (fun c => c ≠ '.')
    String.mk fv2

/-- Anchored match of the number group `[+-]?\d+(?:\.\d+)?` of
`PARSE_RE` at the start of `l`; returns the matched characters and the
remainder.  Greedy matching is faithful: shortening any greedy part
leaves a digit or `'.'` at the head of the remainder, which the regex
tail `\s*(unit)$` can never match. -/
def matchNumber (l : List Char) : Option (List Char × List Char) :=
  let signSplit : List Char × List Char :=
    match l with
    | '+' :: r => (['+'], r)
    | '-' :: r => (['-'], r)
    | _ => ([], l)
  let sign := signSplit.1
  let r1 := signSplit.2
  let ds := r1.takeWhile Char.isDigit
  if ds.isEmpty then none
  else
    let r2 := r1.drop ds.length
    match r2 with
    | '.' :: r3 =>
      let fs := r3.takeWhile Char.isDigit
      if fs.isEmpty then some (sign ++ ds, r2)
      else some (sign ++ ds ++ '.' :: fs, r3.drop fs.length)
    | _ => some (sign ++ ds, r2)

/-- Model of `PARSE_RE.exec`, where
`PARSE_RE = ^([+-]?\d+(?:\.\d+)?)\s*(kb|mb|gb|tb|pb|eb|zb|yb|b)$` with
the `i` flag: the number group, optional whitespace, then a unit token
filling the rest of the string.  Returns the two capture groups. -/
def strictMatch (l : List Char) : Option (List Char × List Char) :=
  match matchNumber l with
  | none => none
  | some (num, rest) =>
    let unitChars := rest.dropWhile isJsWs
    if jsToLower (String.mk unitChars) ∈ PARSE_UNIT_TOKENS then
      some (num, unitChars)
    else none

/-- The transient parse result of `parseInput` (`ParsedInput` in the
source): magnitude and lowercase unit. -/
structure ParsedInput where
  floatValue : ℚ
  unit : String
  deriving DecidableEq

/-- Model of `parseInput` from `src/utils.ts`: trim, try the strict
regex (finite number and recognised unit required), and fall back to
`parseFloat` on the whole trimmed string with implicit unit `b`. -/
def parseInput (value : String) : Option ParsedInput :=
  let trimmed := jsTrim value.data
  match strictMatch trimmed with
  | some (numChars, unitChars) =>
    match parseFloat numChars, toByteUnit (String.mk unitChars) with
    | .fin floatValue, some unit => some ⟨floatValue, unit⟩
    | _, _ => none
  | none =>
    match parseFloat trimmed with
    | .fin floatValue => some ⟨floatValue, "b"⟩
    | _ => none

/-- Model of `toBytes` from `src/utils.ts`:
`Math.floor(UNIT_VALUE_BY_LOWER[unit] * floatValue)`, or `NaN` for an
unknown unit. -/
def toBytes (floatValue : ℚ) (unit : String) : JSNum :=
  match toByteUnit unit with
  | none => .nan
  | some normalizedUnit =>
    .fin ((⌊unitValueByLower normalizedUnit * floatValue⌋ : ℤ) : ℚ)

/-- Output shape selector of `ParseBytesOptions` (default `number`). -/
inductive ParseShape where
  | number
  | array
  | object
  deriving DecidableEq

/-- The three result shapes of `parseBytes`: scalar byte count, tuple
`[bytes, unit]`, or record `{ value, unit, bytes }`. -/
inductive ParseResult where
  | scalar (bytes : JSNum)
  | tuple (bytes : JSNum) (unit : String)
  | record (value : JSNum) (unit : String) (bytes : JSNum)
  deriving DecidableEq

/-- An input to the parse functions: a number or a string. -/
inductive BytesInput where
  | num (n : JSNum)
  | str (s : String)
  deriving DecidableEq

/-- Model of `parseBytes` from `src/index.ts`: finite numbers pass
through unchanged with implicit unit `B`; strings go through
`parseInput` and `toBytes`; anything else is `null` (`none`). -/
def parseBytes (val : BytesInput) (output : ParseShape) : Option ParseResult :=
  match val with
  | .num n =>
    if n.isFinite then
      match output with
      | .array => some (.tuple n "B")
      | .object => some (.record n "B" n)
      | .number => some (.scalar n)
    else none
  | .str s =>
    match parseInput s with
    | none => none
    | some parsed =>
      let bytes := toBytes parsed.floatValue parsed.unit
      let unitLabel := jsToUpper parsed.unit
      match output with
      | .array => some (.tuple bytes unitLabel)
      | .object => some (.record (.fin parsed.floatValue) unitLabel bytes)
      | .number => some (.scalar bytes)

/-- Output shape selector of `FormatBytesOptions` (default `string`). -/
inductive FormatShape where
  | string
  | array
  | object
  deriving DecidableEq

/-- Model of `FormatBytesOptions`, with the defaults destructured in
`formatBytes`. -/
structure FormatOptions where
  decimalPlaces : ℕ := 2
  fixedDecimals : Bool := false
  output : FormatShape := .string
  thousandsSeparator : String := ""
  unit : Option String := none
  unitSeparator : String := ""
  deriving DecidableEq

/-- The three result shapes of `formatBytes`: assembled string, tuple
`[value, unit]`, or record `{ value, unit, bytes }`. -/
inductive FormatResult where
  | str (s : String)
  | tuple (value unit : String)
  | record (value : String) (unit : String) (bytes : ℚ)
  deriving DecidableEq

/-- Model of `formatBytes` from `src/index.ts`: `null` for non-finite
input, else resolve the unit from `Math.abs(value)`, render with
`formatValue`, and assemble the requested output shape. -/
def formatBytes (value : JSNum) (options : FormatOptions) : Option FormatResult :=
  match value with
  | .fin v =>
    let unit := resolveUnit |v| options.unit
    let str := formatValue v unit options.decimalPlaces options.fixedDecimals
      options.thousandsSeparator
    match options.output with
    | .array => some (.tuple str unit)
    | .object => some (.record str unit v)
    | .string => some (.str (str ++ options.unitSeparator ++ unit))
  | _ => none

/-- A `TypeError`, identified by its message. -/
structure JSError where
  message : String
  deriving DecidableEq

/-- The tagged result of `safeParseBytes`. -/
inductive SafeParseResult where
  | ok (value : ParseResult)
  | err (error : JSError)
  deriving DecidableEq

/-- Rendering of a finite number by JS `String(...)`.  Only the
non-finite renderings are ever observable in an error message (finite
numeric inputs always parse), so an exact-rational display suffices
here. -/
def ratToString (q : ℚ) : String :=
  toString q

/-- Model of `String(val)` on a JavaScript number. -/
def jsNumberToString : JSNum → String
  | .nan => "NaN"
  | .inf false => "Infinity"
  | .inf true => "-Infinity"
  | .fin q => ratToString q

/-- The message of the eagerly constructed `invalidValueError` of
`safeParseBytes`: the template literal quotes string inputs and renders
numeric inputs with `String(...)`. -/
def invalidValueMessage (val : BytesInput) : String :=
  "Invalid byte value: " ++
    (match val with
     | .str s => "\"" ++ s ++ "\""
     | .num n => jsNumberToString n)

/-- Model of `safeParseBytes` from `src/index.ts`.  The source branches
on `options.output` three times, each branch calling `parseBytes` with
that same shape and wrapping `null` as the failure variant; this
collapses to a single call. -/
def safeParseBytes (val : BytesInput) (output : ParseShape) : SafeParseResult :=
  match parseBytes val output with
  | none => .err ⟨invalidValueMessage val⟩
  | some result => .ok result

/-- Model of `parseBytesOrThrow` from `src/index.ts`: call
`safeParseBytes` with the same shape, re-raise the contained error on
failure (`Except.error`), return the unwrapped value on success. -/
def parseBytesOrThrow (val : BytesInput) (output : ParseShape) :
    Except JSError ParseResult :=
  match safeParseBytes val output with
  | .ok v => .ok v
  | .err e => .error e

end Bytes

open Bytes

/-- A match attempt of the decimal-stripping regex fails at any
position not holding a dot (both alternatives begin with a literal
dot). -/
theorem decimalsMatchAt_ne_dot (c : Char) (rest : List Char) (hc : c ≠ '.') :
    decimalsMatchAt (c :: rest) = none := by
  unfold decimalsMatchAt
  simp [hc]

/-- A string without a dot is left unchanged by the trailing-zero
stripper. -/
theorem replaceDecimals_no_dot (l : List Char) (h : '.' ∉ l) :
    replaceDecimals l = l := by
  induction l with
  | nil => rfl
  | cons c rest ih =>
    have hc : c ≠ '.' := fun hcc => h (hcc ▸ List.mem_cons_self c rest)
    have hrest : '.' ∉ rest := fun hm => h (List.mem_cons_of_mem c hm)
    unfold replaceDecimals
    rw [decimalsMatchAt_ne_dot c rest hc, ih hrest]

/-- A unit returned by `toByteUnit` is one of the nine lowercase names. -/
theorem toByteUnit_mem (x : String) (u : String) (h : toByteUnit x = some u) :
    u ∈ LOWER_LABELS := by
  unfold toByteUnit at h
  by_cases hm : jsToLower x ∈ LOWER_LABELS
  · rw [if_pos hm] at h
    injection h with h2
    exact h2 ▸ hm
  · rw [if_neg hm] at h
    exact Option.noConfusion h

/-- A unit produced by `parseInput` is one of the nine lowercase names. -/
theorem parseInput_unit_mem (s : String) (p : ParsedInput)
    (h : parseInput s = some p) : p.unit ∈ LOWER_LABELS := by
  unfold parseInput at h
  dsimp only at h
  cases hs : strictMatch (jsTrim s.data) with
  | some g =>
    obtain ⟨num, unitChars⟩ := g
    rw [hs] at h
    dsimp only at h
    cases hf : parseFloat num with
    | fin q =>
      rw [hf] at h
      cases hu : toByteUnit (String.mk unitChars) with
      | some u =>
        rw [hu] at h
        cases h
        exact toByteUnit_mem _ _ hu
      | none => rw [hu] at h; cases h
    | nan => rw [hf] at h; cases h
    | inf b => rw [hf] at h; cases h
  | none =>
    rw [hs] at h
    dsimp only at h
    cases hf : parseFloat (jsTrim s.data) with
    | fin q =>
      rw [hf] at h
      injection h with h2
      rw [← h2]
      show "b" ∈ LOWER_LABELS
      decide
    | nan => rw [hf] at h; cases h
    | inf b => rw [hf] at h; cases h

/-- When normalisation is the identity on a unit name, `toBytes` floors
the product of multiplier and magnitude. -/
theorem toBytes_of_fixed (q : ℚ) (u : String) (hu : toByteUnit u = some u) :
    toBytes q u = .fin ((⌊unitValueByLower u * q⌋ : ℤ) : ℚ) := by
  unfold toBytes
  rw [hu]

/-- On the nine lowercase unit names, `toBytes` floors the product of
multiplier and magnitude. -/
theorem toBytes_of_mem (q : ℚ) (u : String) (h : u ∈ LOWER_LABELS) :
    toBytes q u = .fin ((⌊unitValueByLower u * q⌋ : ℤ) : ℚ) := by
  fin_cases h <;> exact toBytes_of_fixed q _ (by decide)

/-- Shape of every successful string parse: the byte count carried by
each output shape is the floor of multiplier times magnitude. -/
theorem parseBytes_str_eq (s : String) (p : ParsedInput) (shape : ParseShape)
    (h : parseInput s = some p) :
    parseBytes (.str s) shape =
      some (match shape with
        | .number =>
          .scalar (.fin ((⌊unitValueByLower p.unit * p.floatValue⌋ : ℤ) : ℚ))
        | .array =>
          .tuple (.fin ((⌊unitValueByLower p.unit * p.floatValue⌋ : ℤ) : ℚ))
            (jsToUpper p.unit)
        | .object =>
          .record (.fin p.floatValue) (jsToUpper p.unit)
            (.fin ((⌊unitValueByLower p.unit * p.floatValue⌋ : ℤ) : ℚ))) := by
  have hb := toBytes_of_mem p.floatValue p.unit (parseInput_unit_mem s p h)
  unfold parseBytes
  dsimp only
  rw [h]
  dsimp only
  rw [hb]
  cases shape <;> rfl


/-- C1: round-trip law at the five specified powers of 1024: formatting
with default options then parsing with default options returns exactly
the input value. -/
theorem c1_roundtrip_powers :
    (formatBytes (.fin 1024) {} = some (.str "1KB")
      ∧ parseBytes (.str "1KB") .number = some (.scalar (.fin 1024)))
    ∧ (formatBytes (.fin 1048576) {} = some (.str "1MB")
      ∧ parseBytes (.str "1MB") .number = some (.scalar (.fin 1048576)))
    ∧ (formatBytes (.fin 1073741824) {} = some (.str "1GB")
      ∧ parseBytes (.str "1GB") .number = some (.scalar (.fin 1073741824)))
    ∧ (formatBytes (.fin (1024 ^ 4)) {} = some (.str "1TB")
      ∧ parseBytes (.str "1TB") .number = some (.scalar (.fin (1024 ^ 4))))
    ∧ (formatBytes (.fin (1024 ^ 5)) {} = some (.str "1PB")
      ∧ parseBytes (.str "1PB") .number = some (.scalar (.fin (1024 ^ 5)))) := by
  refine ⟨⟨?_, ?_⟩, ⟨?_, ?_⟩, ⟨?_, ?_⟩, ⟨?_, ?_⟩, ?_, ?_⟩ <;> with_unfolding_all rfl

/-- C2 counterexample: the trimmed string "12abc" fails the strict
match and is not purely numeric, yet `parseBytes` returns 12 rather
than the absent outcome the claim requires, because the bare-number
fallback uses `parseFloat`, which parses a leading numeric prefix. -/
theorem c2_counterexample :
    strictMatch (jsTrim "12abc".data) = none
      ∧ parseBytes (.str "12abc") .number = some (.scalar (.fin 12)) :=
  ⟨by decide, by with_unfolding_all rfl⟩

/-- C2 amended: when the trimmed string fails the strict match, the
fallback applies `parseFloat` to it, which parses a leading decimal
prefix and ignores any trailing characters; the result is absent
exactly when no finite prefix parses, and otherwise is the floor of the
prefix value with implicit unit `B`. -/
theorem c2_amended_fallback (s : String)
    (h : strictMatch (jsTrim s.data) = none) :
    parseBytes (.str s) .number =
      match parseFloat (jsTrim s.data) with
      | .fin q => some (.scalar (.fin ((⌊q⌋ : ℤ) : ℚ)))
      | _ => none := by
  unfold parseBytes parseInput
  dsimp only
  rw [h]
  dsimp only
  cases hf : parseFloat (jsTrim s.data) with
  | fin q =>
    dsimp only
    rw [toBytes_of_fixed q "b" (by decide)]
    have h1 : unitValueByLower "b" = 1 := by with_unfolding_all rfl
    rw [h1, one_mul]
  | nan => rfl
  | inf b => rfl

/-- C2 amended, witness at the concrete input "12abc". -/
theorem c2_amended_fallback_witness :
    strictMatch (jsTrim "12abc".data) = none
      ∧ parseBytes (.str "12abc") .number =
          (match parseFloat (jsTrim "12abc".data) with
           | .fin q => some (.scalar (.fin ((⌊q⌋ : ℤ) : ℚ)))
           | _ => none) :=
  ⟨by decide, c2_amended_fallback "12abc" (by decide)⟩

/-- C3 counterexample: with `decimalPlaces = 3` and `fixedDecimals`
false, the value 41/20 (the double 2.05) renders as "2.050": the
trailing zero after an interior zero is NOT stripped, contradicting the
claim that such a rendering loses its trailing zero (which would give
"2.05"). -/
theorem c3_counterexample :
    formatBytes (.fin (41/20)) { decimalPlaces := 3 } = some (.str "2.050B")
      ∧ formatBytes (.fin (41/20)) { decimalPlaces := 3 } ≠ some (.str "2.05B") := by
  have h : formatBytes (.fin (41/20)) { decimalPlaces := 3 } = some (.str "2.050B") := by
    with_unfolding_all rfl
  refine ⟨h, ?_⟩
  rw [h]
  decide

/-- C3 amended: the stripper removes the decimal point and fraction
when every fractional digit is zero, and removes the trailing zeros
when the fraction is a non-empty run of non-zero characters followed by
a non-empty run of zeros; any other fraction — in particular one with
an interior zero before its trailing zeros, such as in "2.050" — is
left unchanged. -/
theorem c3_amended_strip (pre frac : List Char)
    (hpre : '.' ∉ pre) (hfrac : '.' ∉ frac) :
    replaceDecimals (pre ++ '.' :: frac) =
      if frac.all (fun c => c = '0') then pre
      else if (frac.takeWhile (fun c => c ≠ '0')) ≠ []
              ∧ (frac.drop (frac.takeWhile (fun c => c ≠ '0')).length) ≠ []
              ∧ (frac.drop (frac.takeWhile (fun c => c ≠ '0')).length).all
                  (fun c => c = '0')
        then pre ++ '.' :: frac.takeWhile (fun c => c ≠ '0')
        else pre ++ '.' :: frac := by
  induction pre with
  | nil =>
    simp only [List.nil_append]
    unfold replaceDecimals decimalsMatchAt
    dsimp only
    rw [if_pos rfl]
    by_cases h0 : frac.all (fun x => x = '0')
    · rw [if_pos h0, if_pos h0]
    · rw [if_neg h0, if_neg h0]
      by_cases h1 : (frac.takeWhile (fun c => c ≠ '0')) ≠ []
          ∧ (frac.drop (frac.takeWhile (fun c => c ≠ '0')).length) ≠ []
          ∧ (frac.drop (frac.takeWhile (fun c => c ≠ '0')).length).all
              (fun c => c = '0')
      · rw [if_pos h1, if_pos h1]
      · rw [if_neg h1, if_neg h1]
        rw [replaceDecimals_no_dot frac hfrac]
  | cons c pre ih =>
    have hc : c ≠ '.' := fun hcc => hpre (hcc ▸ List.mem_cons_self c pre)
    have hpre2 : '.' ∉ pre := fun hm => hpre (List.mem_cons_of_mem c hm)
    rw [List.cons_append]
    unfold replaceDecimals
    rw [decimalsMatchAt_ne_dot c (pre ++ '.' :: frac) hc]
    rw [ih hpre2]
    by_cases h0 : frac.all (fun x => x = '0')
    · rw [if_pos h0, if_pos h0]
    · rw [if_neg h0, if_neg h0]
      by_cases h1 : (frac.takeWhile (fun c => c ≠ '0')) ≠ []
          ∧ (frac.drop (frac.takeWhile (fun c => c ≠ '0')).length) ≠ []
          ∧ (frac.drop (frac.takeWhile (fun c => c ≠ '0')).length).all
              (fun c => c = '0')
      · rw [if_pos h1, if_pos h1]
        rfl
      · rw [if_neg h1, if_neg h1]

/-- C3 amended, witness at the fraction "050" of the rendering "2.050"
(unchanged: the interior zero blocks the strip). -/
theorem c3_amended_strip_witness :
    ('.' ∉ ['2'] ∧ '.' ∉ ['0', '5', '0'])
      ∧ replaceDecimals (['2'] ++ '.' :: ['0', '5', '0']) =
          (if (['0', '5', '0'] : List Char).all (fun c => c = '0') then ['2']
           else if ((['0', '5', '0'] : List Char).takeWhile (fun c => c ≠ '0')) ≠ []
                   ∧ ((['0', '5', '0'] : List Char).drop
                       ((['0', '5', '0'] : List Char).takeWhile (fun c => c ≠ '0')).length) ≠ []
                   ∧ ((['0', '5', '0'] : List Char).drop
                       ((['0', '5', '0'] : List Char).takeWhile (fun c => c ≠ '0')).length).all
                       (fun c => c = '0')
             then ['2'] ++ '.' :: (['0', '5', '0'] : List Char).takeWhile (fun c => c ≠ '0')
             else ['2'] ++ '.' :: ['0', '5', '0']) :=
  ⟨⟨by decide, by decide⟩, c3_amended_strip ['2'] ['0', '5', '0'] (by decide) (by decide)⟩

/-- C6: every string accepted by the parser yields the mathematical
floor (toward negative infinity) of magnitude times multiplier;
"1.5B" parses to 1 and "-1.5B" (magnitude -1.5, unit B) to -2. -/
theorem c6_parse_floor :
    (∀ (s : String) (p : ParsedInput), parseInput s = some p →
        parseBytes (.str s) .number =
          some (.scalar (.fin ((⌊unitValueByLower p.unit * p.floatValue⌋ : ℤ) : ℚ))))
      ∧ parseBytes (.str "1.5B") .number = some (.scalar (.fin 1))
      ∧ parseBytes (.str "-1.5B") .number = some (.scalar (.fin (-2))) := by
  refine ⟨?_, by with_unfolding_all rfl, by with_unfolding_all rfl⟩
  intro s p h
  exact parseBytes_str_eq s p .number h

/-- C6, witness at the concrete input "1.5B". -/
theorem c6_parse_floor_witness :
    parseInput "1.5B" = some ⟨3/2, "b"⟩
      ∧ parseBytes (.str "1.5B") .number =
          some (.scalar (.fin ((⌊unitValueByLower "b" * (3/2 : ℚ)⌋ : ℤ) : ℚ))) :=
  ⟨by with_unfolding_all rfl,
   c6_parse_floor.1 "1.5B" ⟨3/2, "b"⟩ (by with_unfolding_all rfl)⟩

/-- C7 counterexample: the finite numeric input 1.5 passes through
`parseBytes` unchanged — the returned byte count is 3/2, which is not
an integer and not the floor of magnitude times multiplier. -/
theorem c7_counterexample :
    parseBytes (.num (.fin (3/2))) .number = some (.scalar (.fin (3/2)))
      ∧ (3/2 : ℚ) ≠ ((⌊(3/2 : ℚ)⌋ : ℤ) : ℚ) := by
  refine ⟨by with_unfolding_all rfl, ?_⟩
  have h : (⌊(3/2 : ℚ)⌋ : ℤ) = 1 := by with_unfolding_all rfl
  rw [h]
  norm_num

/-- C7 amended: string inputs carry the integer floor of magnitude
times multiplier in every output shape, but finite numeric inputs pass
through unchanged (with implicit unit B) and may carry a non-integer
byte count. -/
theorem c7_amended_bytes :
    (∀ (s : String) (p : ParsedInput) (shape : ParseShape),
        parseInput s = some p →
          parseBytes (.str s) shape =
            some (match shape with
              | .number =>
                .scalar (.fin ((⌊unitValueByLower p.unit * p.floatValue⌋ : ℤ) : ℚ))
              | .array =>
                .tuple (.fin ((⌊unitValueByLower p.unit * p.floatValue⌋ : ℤ) : ℚ))
                  (jsToUpper p.unit)
              | .object =>
                .record (.fin p.floatValue) (jsToUpper p.unit)
                  (.fin ((⌊unitValueByLower p.unit * p.floatValue⌋ : ℤ) : ℚ))))
      ∧ (∀ (q : ℚ) (shape : ParseShape),
          parseBytes (.num (.fin q)) shape =
            some (match shape with
              | .number => .scalar (.fin q)
              | .array => .tuple (.fin q) "B"
              | .object => .record (.fin q) "B" (.fin q))) := by
  constructor
  · intro s p shape h
    exact parseBytes_str_eq s p shape h
  · intro q shape
    cases shape <;> rfl

/-- C7 amended, witness at the string "1.5B" with object output. -/
theorem c7_amended_bytes_witness :
    parseInput "1.5B" = some ⟨3/2, "b"⟩
      ∧ parseBytes (.str "1.5B") .object =
          some (.record (.fin (3/2)) (jsToUpper "b")
            (.fin ((⌊unitValueByLower "b" * (3/2 : ℚ)⌋ : ℤ) : ℚ))) :=
  ⟨by with_unfolding_all rfl,
   c7_amended_bytes.1 "1.5B" ⟨3/2, "b"⟩ .object (by with_unfolding_all rfl)⟩

/-- C8: formatting NaN or either infinity yields the absent outcome for
every option combination, in particular every output shape; as a total
Lean function, `formatBytes` cannot raise. -/
theorem c8_format_nonfinite_absent :
    ∀ (o : FormatOptions),
      formatBytes .nan o = none
        ∧ formatBytes (.inf false) o = none
        ∧ formatBytes (.inf true) o = none :=
  fun _ => ⟨rfl, rfl, rfl⟩

/-- C9: `safeParseBytes` fails exactly when `parseBytes` is absent, its
error carrying the message that quotes string inputs and renders
numeric inputs as their literal text; `parseBytesOrThrow` raises
exactly that error on failure and otherwise returns the value
`parseBytes` returns for the same options. -/
theorem c9_error_adapters :
    (∀ (val : BytesInput) (shape : ParseShape),
        (safeParseBytes val shape = .err ⟨invalidValueMessage val⟩
            ↔ parseBytes val shape = none)
          ∧ (∀ e, safeParseBytes val shape = .err e
                ↔ (parseBytes val shape = none ∧ e = ⟨invalidValueMessage val⟩))
          ∧ (∀ r, safeParseBytes val shape = .ok r ↔ parseBytes val shape = some r)
          ∧ (∀ e, parseBytesOrThrow val shape = .error e
                ↔ safeParseBytes val shape = .err e)
          ∧ (∀ r, parseBytesOrThrow val shape = .ok r ↔ parseBytes val shape = some r))
      ∧ invalidValueMessage (.str "bad") = "Invalid byte value: \"bad\""
      ∧ invalidValueMessage (.num .nan) = "Invalid byte value: NaN" := by
  refine ⟨?_, rfl, rfl⟩
  intro val shape
  cases h : parseBytes val shape with
  | none =>
    simp [safeParseBytes, parseBytesOrThrow, h]
    exact fun e => eq_comm
  | some r0 => simp [safeParseBytes, parseBytesOrThrow, h]

/-- The greatest unit index whose multiplier is at most `m` (bounded by
8), for a magnitude of at least the corresponding power. -/
theorem findGreatest_pow_eq (m : ℚ) (k : ℕ) (hk : k ≤ 8)
    (hle : (1024 : ℚ) ^ k ≤ m) (hub : ¬(1024 : ℚ) ^ (k + 1) ≤ m) :
    Nat.findGreatest (fun i => (1024 : ℚ) ^ i ≤ m) 8 = k := by
  apply Nat.findGreatest_eq_iff.mpr
  refine ⟨hk, fun _ => hle, ?_⟩
  intro n hkn hn8 hP
  exact hub (le_trans (pow_le_pow_right₀ (by norm_num) (by omega)) hP)

/-- With no recognised explicit unit, the threshold scan of
`resolveUnit` selects `B` below magnitude 1 and otherwise the largest
of the nine units whose multiplier is at most the magnitude (hence
clamped to `YB`). -/
theorem resolveUnit_auto (m : ℚ) (p : Option String)
    (h : explicitUnit p = none) :
    resolveUnit m p =
      LABELS.getD
        (if m < 1 then 0 else Nat.findGreatest (fun i => (1024 : ℚ) ^ i ≤ m) 8)
        "B" := by
  unfold resolveUnit
  rw [h]
  by_cases h8 : (1024 : ℚ) ^ 8 ≤ m
  · have hf : UNIT_THRESHOLDS.find? (fun ut => decide (ut.2 ≤ m))
        = some ("YB", (1024 : ℚ) ^ 8) := by
      simp only [UNIT_THRESHOLDS]
      rw [List.find?_cons_of_pos _ (by exact decide_eq_true h8)]
    rw [hf]
    have hge1 : (1 : ℚ) ≤ m := le_trans (by norm_num) h8
    rw [if_neg (not_lt.mpr hge1)]
    have hfg : Nat.findGreatest (fun i => (1024 : ℚ) ^ i ≤ m) 8 = 8 :=
      le_antisymm (Nat.findGreatest_le 8) (Nat.le_findGreatest le_rfl h8)
    rw [hfg]
    rfl
  · by_cases h7 : (1024 : ℚ) ^ 7 ≤ m
    · have hf : UNIT_THRESHOLDS.find? (fun ut => decide (ut.2 ≤ m))
          = some ("ZB", (1024 : ℚ) ^ 7) := by
        simp only [UNIT_THRESHOLDS]
        rw [List.find?_cons_of_neg _ (by simp [h8]),
          List.find?_cons_of_pos _ (by exact decide_eq_true h7)]
      rw [hf]
      have hge1 : (1 : ℚ) ≤ m := le_trans (by norm_num) h7
      rw [if_neg (not_lt.mpr hge1), findGreatest_pow_eq m 7 (by norm_num) h7 h8]
      rfl
    · by_cases h6 : (1024 : ℚ) ^ 6 ≤ m
      · have hf : UNIT_THRESHOLDS.find? (fun ut => decide (ut.2 ≤ m))
            = some ("EB", (1024 : ℚ) ^ 6) := by
          simp only [UNIT_THRESHOLDS]
          rw [List.find?_cons_of_neg _ (by simp [h8]),
            List.find?_cons_of_neg _ (by simp [h7]),
            List.find?_cons_of_pos _ (by exact decide_eq_true h6)]
        rw [hf]
        have hge1 : (1 : ℚ) ≤ m := le_trans (by norm_num) h6
        rw [if_neg (not_lt.mpr hge1), findGreatest_pow_eq m 6 (by norm_num) h6 h7]
        rfl
      · by_cases h5 : (1024 : ℚ) ^ 5 ≤ m
        · have hf : UNIT_THRESHOLDS.find? (fun ut => decide (ut.2 ≤ m))
              = some ("PB", (1024 : ℚ) ^ 5) := by
            simp only [UNIT_THRESHOLDS]
            rw [List.find?_cons_of_neg _ (by simp [h8]),
              List.find?_cons_of_neg _ (by simp [h7]),
              List.find?_cons_of_neg _ (by simp [h6]),
              List.find?_cons_of_pos _ (by exact decide_eq_true h5)]
          rw [hf]
          have hge1 : (1 : ℚ) ≤ m := le_trans (by norm_num) h5
          rw [if_neg (not_lt.mpr hge1), findGreatest_pow_eq m 5 (by norm_num) h5 h6]
          rfl
        · by_cases h4 : (1024 : ℚ) ^ 4 ≤ m
          · have hf : UNIT_THRESHOLDS.find? (fun ut => decide (ut.2 ≤ m))
                = some ("TB", (1024 : ℚ) ^ 4) := by
              simp only [UNIT_THRESHOLDS]
              rw [List.find?_cons_of_neg _ (by simp [h8]),
                List.find?_cons_of_neg _ (by simp [h7]),
                List.find?_cons_of_neg _ (by simp [h6]),
                List.find?_cons_of_neg _ (by simp [h5]),
                List.find?_cons_of_pos _ (by exact decide_eq_true h4)]
            rw [hf]
            have hge1 : (1 : ℚ) ≤ m := le_trans (by norm_num) h4
            rw [if_neg (not_lt.mpr hge1), findGreatest_pow_eq m 4 (by norm_num) h4 h5]
            rfl
          · by_cases h3 : (1024 : ℚ) ^ 3 ≤ m
            · have hf : UNIT_THRESHOLDS.find? (fun ut => decide (ut.2 ≤ m))
                  = some ("GB", (1024 : ℚ) ^ 3) := by
                simp only [UNIT_THRESHOLDS]
                rw [List.find?_cons_of_neg _ (by simp [h8]),
                  List.find?_cons_of_neg _ (by simp [h7]),
                  List.find?_cons_of_neg _ (by simp [h6]),
                  List.find?_cons_of_neg _ (by simp [h5]),
                  List.find?_cons_of_neg _ (by simp [h4]),
                  List.find?_cons_of_pos _ (by exact decide_eq_true h3)]
              rw [hf]
              have hge1 : (1 : ℚ) ≤ m := le_trans (by norm_num) h3
              rw [if_neg (not_lt.mpr hge1), findGreatest_pow_eq m 3 (by norm_num) h3 h4]
              rfl
            · by_cases h2 : (1024 : ℚ) ^ 2 ≤ m
              · have hf : UNIT_THRESHOLDS.find? (fun ut => decide (ut.2 ≤ m))
                    = some ("MB", (1024 : ℚ) ^ 2) := by
                  simp only [UNIT_THRESHOLDS]
                  rw [List.find?_cons_of_neg _ (by simp [h8]),
                    List.find?_cons_of_neg _ (by simp [h7]),
                    List.find?_cons_of_neg _ (by simp [h6]),
                    List.find?_cons_of_neg _ (by simp [h5]),
                    List.find?_cons_of_neg _ (by simp [h4]),
                    List.find?_cons_of_neg _ (by simp [h3]),
                    List.find?_cons_of_pos _ (by exact decide_eq_true h2)]
                rw [hf]
                have hge1 : (1 : ℚ) ≤ m := le_trans (by norm_num) h2
                rw [if_neg (not_lt.mpr hge1), findGreatest_pow_eq m 2 (by norm_num) h2 h3]
                rfl
              · by_cases h1 : (1024 : ℚ) ^ 1 ≤ m
                · have hf : UNIT_THRESHOLDS.find? (fun ut => decide (ut.2 ≤ m))
                      = some ("KB", (1024 : ℚ) ^ 1) := by
                    simp only [UNIT_THRESHOLDS]
                    rw [List.find?_cons_of_neg _ (by simp [h8]),
                      List.find?_cons_of_neg _ (by simp [h7]),
                      List.find?_cons_of_neg _ (by simp [h6]),
                      List.find?_cons_of_neg _ (by simp [h5]),
                      List.find?_cons_of_neg _ (by simp [h4]),
                      List.find?_cons_of_neg _ (by simp [h3]),
                      List.find?_cons_of_neg _ (by simp [h2]),
                      List.find?_cons_of_pos _ (by exact decide_eq_true h1)]
                  rw [hf]
                  have hge1 : (1 : ℚ) ≤ m := le_trans (by norm_num) h1
                  rw [if_neg (not_lt.mpr hge1),
                    findGreatest_pow_eq m 1 (by norm_num) h1 h2]
                  rfl
                · by_cases h0 : (1024 : ℚ) ^ 0 ≤ m
                  · have hf : UNIT_THRESHOLDS.find? (fun ut => decide (ut.2 ≤ m))
                        = some ("B", (1024 : ℚ) ^ 0) := by
                      simp only [UNIT_THRESHOLDS]
                      rw [List.find?_cons_of_neg _ (by simp [h8]),
                        List.find?_cons_of_neg _ (by simp [h7]),
                        List.find?_cons_of_neg _ (by simp [h6]),
                        List.find?_cons_of_neg _ (by simp [h5]),
                        List.find?_cons_of_neg _ (by simp [h4]),
                        List.find?_cons_of_neg _ (by simp [h3]),
                        List.find?_cons_of_neg _ (by simp [h2]),
                        List.find?_cons_of_neg _ (by simpa using h1),
                        List.find?_cons_of_pos _ (by exact decide_eq_true h0)]
                    rw [hf]
                    have hge1 : (1 : ℚ) ≤ m := by simpa using h0
                    rw [if_neg (not_lt.mpr hge1),
                      findGreatest_pow_eq m 0 (by norm_num) h0 h1]
                    rfl
                  · have hf : UNIT_THRESHOLDS.find? (fun ut => decide (ut.2 ≤ m))
                        = none := by
                      simp only [UNIT_THRESHOLDS]
                      rw [List.find?_cons_of_neg _ (by simp [h8]),
                        List.find?_cons_of_neg _ (by simp [h7]),
                        List.find?_cons_of_neg _ (by simp [h6]),
                        List.find?_cons_of_neg _ (by simp [h5]),
                        List.find?_cons_of_neg _ (by simp [h4]),
                        List.find?_cons_of_neg _ (by simp [h3]),
                        List.find?_cons_of_neg _ (by simp [h2]),
                        List.find?_cons_of_neg _ (by simpa using h1),
                        List.find?_cons_of_neg _ (by simpa using h0),
                        List.find?_nil]
                    rw [hf]
                    have hlt1 : m < 1 := by
                      have := not_le.mp h0
                      simpa using this
                    rw [if_pos hlt1]
                    rfl

/-- C4: with no recognised forced unit, automatic selection picks `B`
for magnitudes below 1, otherwise the largest of the nine units whose
multiplier is at most `abs(value)` (clamped to `YB`); at the boundary
1024 it selects `KB`; selection depends only on the absolute value. -/
theorem c4_auto_unit_selection (v : ℚ) (p : Option String)
    (h : explicitUnit p = none) :
    (resolveUnit |v| p =
        LABELS.getD
          (if |v| < 1 then 0
           else Nat.findGreatest (fun i => (1024 : ℚ) ^ i ≤ |v|) 8)
          "B")
      ∧ resolveUnit |v| p = resolveUnit |(-v)| p
      ∧ resolveUnit (1024 : ℚ) p = "KB" := by
  refine ⟨resolveUnit_auto |v| p h, ?_, ?_⟩
  · rw [abs_neg]
  · unfold resolveUnit
    rw [h]
    with_unfolding_all rfl

/-- C4, witness at value 1024 with no preferred unit. -/
theorem c4_auto_unit_selection_witness :
    explicitUnit none = none
      ∧ ((resolveUnit |(1024 : ℚ)| none =
            LABELS.getD
              (if |(1024 : ℚ)| < 1 then 0
               else Nat.findGreatest (fun i => (1024 : ℚ) ^ i ≤ |(1024 : ℚ)|) 8)
              "B")
          ∧ resolveUnit |(1024 : ℚ)| none = resolveUnit |(-(1024 : ℚ))| none
          ∧ resolveUnit (1024 : ℚ) none = "KB") :=
  ⟨rfl, c4_auto_unit_selection 1024 none rfl⟩

/-- A digit character is not a dot. -/
theorem isDigit_ne_dot (c : Char) (h : c.isDigit) : c ≠ '.' := by
  intro heq
  subst heq
  exact absurd h (by decide)

/-- A digit character is not an uppercase N. -/
theorem isDigit_ne_upper_n (c : Char) (h : c.isDigit) : c ≠ 'N' := by
  intro heq
  subst heq
  exact absurd h (by decide)

/-- The characters produced by the digit renderer are decimal digits. -/
theorem digitChar_isDigit (n : ℕ) : (Char.ofNat (48 + n % 10)).isDigit := by
  have h : n % 10 < 10 := Nat.mod_lt _ (by norm_num)
  set r := n % 10 with hr
  interval_cases r <;> decide

/-- The fuel-bounded digit renderer always returns a list headed by a
digit when given fuel. -/
theorem digitsAux_head : ∀ (fuel n : ℕ) (ds : List Char), 0 < fuel →
    ∃ c t, digitsAux fuel n ds = c :: t ∧ c.isDigit := by
  intro fuel
  induction fuel with
  | zero => intro n ds h; exact absurd h (lt_irrefl 0)
  | succ fuel ih =>
    intro n ds _
    unfold digitsAux
    dsimp only
    by_cases h0 : n / 10 = 0
    · rw [if_pos h0]
      exact ⟨_, ds, rfl, digitChar_isDigit n⟩
    · rw [if_neg h0]
      cases hfu : fuel with
      | zero =>
        exact ⟨_, ds, by unfold digitsAux; rfl, digitChar_isDigit n⟩
      | succ fuel2 =>
        subst hfu
        exact ih (n / 10) (Char.ofNat (48 + n % 10) :: ds) (Nat.succ_pos _)

/-- The decimal rendering of a natural number starts with a digit. -/
theorem natDigits_head (n : ℕ) :
    ∃ c t, natDigits n = c :: t ∧ c.isDigit :=
  digitsAux_head (n + 1) n [] (Nat.succ_pos n)

/-- Zero-padding preserves the digits-headed shape of a digit string. -/
theorem padLeftZeros_head (len : ℕ) (l : List Char)
    (hl : ∃ c t, l = c :: t ∧ c.isDigit) :
    ∃ c t, padLeftZeros len l = c :: t ∧ c.isDigit := by
  unfold padLeftZeros
  cases hrep : List.replicate (len - l.length) '0' with
  | nil => simpa using hl
  | cons a b =>
    have ha : a = '0' := List.eq_of_mem_replicate (hrep ▸ List.mem_cons_self a b)
    refine ⟨a, b ++ l, by rw [List.cons_append], ?_⟩
    rw [ha]
    decide

/-- The padded digit string is at least as long as requested. -/
theorem padLeftZeros_length (len : ℕ) (l : List Char) :
    len ≤ (padLeftZeros len l).length := by
  unfold padLeftZeros
  rw [List.length_append, List.length_replicate]
  omega

/-- The output of `toFixed` starts with a minus sign or a digit. -/
theorem toFixed_head (x : ℚ) (f : ℕ) :
    ∃ c t, toFixed x f = c :: t ∧ (c = '-' ∨ c.isDigit) := by
  unfold toFixed
  dsimp only
  by_cases hf0 : f = 0
  · rw [if_pos hf0]
    by_cases hneg : x < 0
    · rw [if_pos hneg]
      exact ⟨'-', _, rfl, Or.inl rfl⟩
    · rw [if_neg hneg]
      obtain ⟨c, t, hct, hd⟩ := natDigits_head (⌊|x| * (10 : ℚ) ^ f + 1/2⌋).toNat
      exact ⟨c, t, by rw [List.nil_append, hct], Or.inr hd⟩
  · rw [if_neg hf0]
    obtain ⟨c, t, hct, hd⟩ :=
      padLeftZeros_head (f + 1) (natDigits (⌊|x| * (10 : ℚ) ^ f + 1/2⌋).toNat)
        (natDigits_head _)
    have hlen : f + 1 ≤ (padLeftZeros (f + 1)
        (natDigits (⌊|x| * (10 : ℚ) ^ f + 1/2⌋).toNat)).length :=
      padLeftZeros_length _ _
    rw [hct] at hlen ⊢
    obtain ⟨k, hk⟩ : ∃ k, (c :: t).length - f = k + 1 := by
      refine ⟨(c :: t).length - f - 1, ?_⟩
      simp only [List.length_cons] at hlen ⊢
      omega
    rw [hk, List.take_succ_cons]
    by_cases hneg : x < 0
    · rw [if_pos hneg]
      exact ⟨'-', _, rfl, Or.inl rfl⟩
    · rw [if_neg hneg]
      exact ⟨c, _, by rw [List.nil_append, List.cons_append], Or.inr hd⟩

/-- The trailing-zero stripper preserves a non-dot head character. -/
theorem replaceDecimals_cons_ne_dot (c : Char) (t : List Char) (h : c ≠ '.') :
    replaceDecimals (c :: t) = c :: replaceDecimals t := by
  conv_lhs => rw [replaceDecimals]
  rw [decimalsMatchAt_ne_dot c t h]

/-- Thousands grouping preserves the head character of the integer
part. -/
theorem groupInteger_head (sep : List Char) (c : Char) (l : List Char) :
    ∃ t, groupInteger sep (c :: l) = c :: t := by
  unfold groupInteger
  dsimp only
  by_cases hc : c = '-'
  · exact ⟨groupDigits sep l, by rw [if_pos hc]⟩
  · refine ⟨if l.length % 3 = 0 ∧ l ≠ [] then sep ++ groupDigits sep l
      else groupDigits sep l, ?_⟩
    rw [if_neg hc]
    rfl

/-- A string headed by a character other than `N` is not `"NaN"`. -/
theorem mk_ne_nan (c : Char) (t : List Char) (h : c ≠ 'N') :
    String.mk (c :: t) ≠ "NaN" := by
  intro heq
  have h3 : c :: t = ['N', 'a', 'N'] := congrArg String.data heq
  injection h3 with h4 _
  exact h h4

/-- Each canonical label normalises to itself. -/
theorem toUnitLabel_of_mem (u : String) (hu : u ∈ LABELS) :
    toUnitLabel u = some u := by
  fin_cases hu <;> decide

/-- Whatever the preferred unit, `resolveUnit` returns one of the nine
canonical labels. -/
theorem resolveUnit_mem (m : ℚ) (p : Option String) :
    resolveUnit m p ∈ LABELS := by
  unfold resolveUnit
  cases hx : explicitUnit p with
  | some u =>
    dsimp only
    unfold explicitUnit at hx
    cases p with
    | none => exact Option.noConfusion hx
    | some ps =>
      dsimp only at hx
      by_cases he : ps.isEmpty
      · rw [if_pos he] at hx
        exact Option.noConfusion hx
      · rw [if_neg he] at hx
        unfold toUnitLabel at hx
        cases hb : toByteUnit ps with
        | none => rw [hb] at hx; exact Option.noConfusion hx
        | some lo =>
          rw [hb] at hx
          injection hx with hx2
          rw [← hx2]
          have hlo := toByteUnit_mem ps lo hb
          fin_cases hlo <;> decide
  | none =>
    dsimp only
    cases hf : UNIT_THRESHOLDS.find? (fun ut => decide (ut.2 ≤ m)) with
    | none => decide
    | some ut =>
      have hmem := List.mem_of_find?_eq_some hf
      fin_cases hmem <;> decide

/-- With a canonical unit label, `formatValue` takes the normal branch
and its output starts with a sign or digit, so it is never the string
`"NaN"`. -/
theorem formatValue_ne_nan (v : ℚ) (u : String) (hu : u ∈ LABELS)
    (dp : ℕ) (fd : Bool) (ts : String) :
    formatValue v u dp fd ts ≠ "NaN" := by
  unfold formatValue
  rw [toUnitLabel_of_mem u hu]
  dsimp only
  obtain ⟨c, t, htf, hc⟩ := toFixed_head (v / unitValueByLabel u) dp
  have hcdot : c ≠ '.' := by
    rcases hc with h | h
    · rw [h]; decide
    · exact isDigit_ne_dot _ h
  have hcN : c ≠ 'N' := by
    rcases hc with h | h
    · rw [h]; decide
    · exact isDigit_ne_upper_n _ h
  obtain ⟨t1, hfv1⟩ : ∃ t1,
      (if fd = true then toFixed (v / unitValueByLabel u) dp
       else replaceDecimals (toFixed (v / unitValueByLabel u) dp)) = c :: t1 := by
    cases fd
    · refine ⟨replaceDecimals t, ?_⟩
      rw [if_neg (by simp), htf, replaceDecimals_cons_ne_dot c t hcdot]
    · exact ⟨t, by rw [if_pos rfl, htf]⟩
  rw [hfv1]
  by_cases hts : ts.isEmpty
  · rw [if_pos hts]
    exact mk_ne_nan c t1 hcN
  · rw [if_neg hts]
    rw [List.takeWhile_cons_of_pos (by simp [hcdot]),
      List.dropWhile_cons_of_pos (by simp [hcdot])]
    obtain ⟨t2, hg⟩ := groupInteger_head ts.data c (t1.takeWhile (fun x => x ≠ '.'))
    rw [hg]
    cases hdw : t1.dropWhile (fun x => x ≠ '.') with
    | nil =>
      dsimp only
      exact mk_ne_nan c t2 hcN
    | cons hd tl =>
      dsimp only
      rw [List.cons_append]
      exact mk_ne_nan c _ hcN

/-- C10: `resolveUnit` always returns one of the nine canonical labels
(for any magnitude and any forced-unit string), so the unknown-unit
branch of `formatValue` that yields `"NaN"` is unreachable from
`formatBytes`: for finite input, every output shape of `formatBytes`
carries the normally rendered value, which is never the string
`"NaN"`. -/
theorem c10_no_nan_rendering :
    ∀ (m : ℚ) (p : Option String),
      resolveUnit m p ∈ LABELS
        ∧ (∀ (v : ℚ) (dp : ℕ) (fd : Bool) (ts : String),
            formatValue v (resolveUnit m p) dp fd ts ≠ "NaN")
        ∧ (∀ (v : ℚ) (o : FormatOptions),
            formatBytes (.fin v) o =
              some (match o.output with
                | .array =>
                  .tuple
                    (formatValue v (resolveUnit |v| o.unit) o.decimalPlaces
                      o.fixedDecimals o.thousandsSeparator)
                    (resolveUnit |v| o.unit)
                | .object =>
                  .record
                    (formatValue v (resolveUnit |v| o.unit) o.decimalPlaces
                      o.fixedDecimals o.thousandsSeparator)
                    (resolveUnit |v| o.unit) v
                | .string =>
                  .str
                    (formatValue v (resolveUnit |v| o.unit) o.decimalPlaces
                      o.fixedDecimals o.thousandsSeparator
                      ++ o.unitSeparator ++ resolveUnit |v| o.unit))) := by
  intro m p
  refine ⟨resolveUnit_mem m p, ?_, ?_⟩
  · intro v dp fd ts
    exact formatValue_ne_nan v _ (resolveUnit_mem m p) dp fd ts
  · intro v o
    rcases o with ⟨dp, fd, out, ts, u, us⟩
    cases out <;> rfl
